import Mathlib

/-!
# RISC-V (common64) CPU port of RT-Thread: `libcpu/risc-v/common64/cpuport.c`

A shallow embedding of the C routines of `cpuport.c` and the properties of
them that the port's specification states.

* `rt_ubase_t`, `unsigned long`, `rt_uint64_t` and pointers are 64-bit
  unsigned machine words: natural numbers, reduced modulo `2 ^ 64` wherever
  the C code does arithmetic on them or stores them to memory.
* `int` values (`hart`, `boot_hartid`, the SBI return code) are integers.
* Global variables and memory are passed explicitly as state.
-/

namespace Cpuport

/-! ## Uniprocessor context-switch request (`#ifndef RT_USING_SMP`) -/

/-- The three global cells of `cpuport.c` lines 40-50. -/
structure SwitchCells where
  rt_interrupt_from_thread : Nat
  rt_interrupt_to_thread : Nat
  rt_thread_switch_interrupt_flag : Nat
  deriving DecidableEq, Repr

/-- The initial values of the three cells (`= 0` initialisers, lines 40-50). -/
def SwitchCells.init : SwitchCells :=
  { rt_interrupt_from_thread := 0
    rt_interrupt_to_thread := 0
    rt_thread_switch_interrupt_flag := 0 }

/-- Lines 116-125:
```
if (rt_thread_switch_interrupt_flag == 0)
    rt_interrupt_from_thread = from;
rt_interrupt_to_thread = to;
rt_thread_switch_interrupt_flag = 1;
```
The parameters are called `from` and `to` in C; `from` is a Lean keyword. -/
def rt_hw_context_switch_interrupt (s : SwitchCells)
    (from_ to_ _from_thread _to_thread : Nat) : SwitchCells :=
  let s1 : SwitchCells :=
    if s.rt_thread_switch_interrupt_flag = 0 then
      { s with rt_interrupt_from_thread := from_ }
    else s
  let s2 : SwitchCells := { s1 with rt_interrupt_to_thread := to_ }
  { s2 with rt_thread_switch_interrupt_flag := 1 }

/-- One request: the four arguments of a call of
`rt_hw_context_switch_interrupt`. -/
structure SwitchRequest where
  from_ : Nat
  to_ : Nat
  from_thread : Nat
  to_thread : Nat
  deriving DecidableEq, Repr

/-- A sequence of calls of `rt_hw_context_switch_interrupt` with nothing
consuming the cells in between. -/
def requestAll (s : SwitchCells) (reqs : List SwitchRequest) : SwitchCells :=
  reqs.foldl
    (fun st r => rt_hw_context_switch_interrupt st r.from_ r.to_ r.from_thread r.to_thread) s

/-! ## Per-core descriptor and the IRQ switch-flag check (`RT_USING_SMP`) -/

/-- The two fields of `struct rt_cpu` that `cpuport.c` touches. The structure
itself is declared in the kernel headers. -/
structure rt_cpu where
  current_thread : Nat
  irq_switch_flag : Nat
  deriving DecidableEq, Repr

/-- Lines 164-176, on the calling core's descriptor (`rt_cpu_self()`):
```
if (pcpu->irq_switch_flag)
{
    current_thread = pcpu->current_thread;
    return 1;
}
return 0;
```
The result is the returned `int` and the descriptor after the call. The body
reads the descriptor and assigns only the local `current_thread`. -/
def rt_percpu_check_irq_switch_flag (pcpu : rt_cpu) : Int × rt_cpu :=
  if pcpu.irq_switch_flag ≠ 0 then
    let _current_thread := pcpu.current_thread
    (1, pcpu)
  else
    (0, pcpu)

/-! ## Memory -/

/-- Byte-addressed memory: the byte stored at each 64-bit address. -/
abbrev Mem := Nat → Nat

/-- Subtraction of 64-bit machine words. -/
def wsub (a b : Nat) : Nat := (a % 2 ^ 64 + (2 ^ 64 - b % 2 ^ 64)) % 2 ^ 64

/-- Addition of 64-bit machine words. -/
def wadd (a b : Nat) : Nat := (a + b) % 2 ^ 64

/-- Store of one byte at address `a`. -/
def write8 (m : Mem) (a b : Nat) : Mem :=
  fun x => if x = a % 2 ^ 64 then b % 256 else m x

/-- Store of a 64-bit word at address `a` (`*p = v` for `rt_ubase_t *p`):
eight bytes, least significant first (RISC-V is little-endian). -/
def store64 (m : Mem) (a v : Nat) : Mem :=
  (List.range 8).foldl (fun mem i => write8 mem (a + i) (v / 256 ^ i)) m

/-- Load of a 64-bit word from address `a`. -/
def load64 (m : Mem) (a : Nat) : Nat :=
  (List.range 8).foldl (fun acc i => acc + m ((a + i) % 2 ^ 64) * 256 ^ i) 0

/-- The C library contract of `rt_memset(s, c, n)`: the `n` bytes from `s`
are set to `(unsigned char)c`. -/
def rt_memset (m : Mem) (s c n : Nat) : Mem :=
  (List.range n).foldl (fun mem i => write8 mem (s + i) c) m

/-- Modelled from the spec: `RT_ALIGN_DOWN(size, align)` is a macro of the
kernel headers, not of `cpuport.c`; the specification has the bootstrap
record "immediately below the aligned top of the region", the top rounded
down to a multiple of the alignment. -/
def RT_ALIGN_DOWN (size align : Nat) : Nat := size - size % align

/-! ## Initial stack frame -/

/-- What `cpuport.c` takes from its headers and from the build: the layout of
`struct rt_hw_switch_frame` (`stack.h`: `rt_ubase_t regs[RT_HW_SWITCH_CONTEXT_SIZE]`
and the slot indices), the `sstatus` bits (`encoding.h`), the two build
options, and the address of the assembly routine `_rt_thread_entry`. -/
structure Port where
  RT_HW_SWITCH_CONTEXT_SIZE : Nat
  RT_HW_SWITCH_CONTEXT_RA : Nat
  RT_HW_SWITCH_CONTEXT_SSTATUS : Nat
  SSTATUS_SPP : Nat
  SSTATUS_SPIE : Nat
  SSTATUS_SUM : Nat
  SSTATUS_FS : Nat
  SSTATUS_VS : Nat
  ARCH_RISCV_FPU : Bool
  ARCH_RISCV_VECTOR : Bool
  rt_thread_entry : Nat
  deriving DecidableEq, Repr

/-- The value of `sizeof(struct rt_hw_switch_frame)`: `RT_HW_SWITCH_CONTEXT_SIZE`
slots of 8 bytes. -/
def Port.frameSize (p : Port) : Nat := 8 * p.RT_HW_SWITCH_CONTEXT_SIZE

/-- The header constants are what the C types make them: the two slot indices
are distinct slots of the frame, the bootstrap record and the frame fit in the
address space, and the constants and the entry address are 64-bit values. -/
def Port.WellFormed (p : Port) : Prop :=
  p.RT_HW_SWITCH_CONTEXT_RA < p.RT_HW_SWITCH_CONTEXT_SIZE
  ∧ p.RT_HW_SWITCH_CONTEXT_SSTATUS < p.RT_HW_SWITCH_CONTEXT_SIZE
  ∧ p.RT_HW_SWITCH_CONTEXT_RA ≠ p.RT_HW_SWITCH_CONTEXT_SSTATUS
  ∧ p.frameSize + 32 ≤ 2 ^ 64
  ∧ p.SSTATUS_SPP < 2 ^ 64 ∧ p.SSTATUS_SPIE < 2 ^ 64 ∧ p.SSTATUS_SUM < 2 ^ 64
  ∧ p.SSTATUS_FS < 2 ^ 64 ∧ p.SSTATUS_VS < 2 ^ 64
  ∧ p.rt_thread_entry < 2 ^ 64

instance (p : Port) : Decidable p.WellFormed := by
  unfold Port.WellFormed; infer_instance

/-- Lines 21-25: `K_SSTATUS_DEFAULT_BASE`. -/
def K_SSTATUS_DEFAULT_BASE (p : Port) : Nat :=
  if p.ARCH_RISCV_FPU then
    p.SSTATUS_SPP ||| p.SSTATUS_SPIE ||| p.SSTATUS_SUM ||| p.SSTATUS_FS
  else
    p.SSTATUS_SPP ||| p.SSTATUS_SPIE ||| p.SSTATUS_SUM

/-- Lines 27-31: `K_SSTATUS_DEFAULT`. -/
def K_SSTATUS_DEFAULT (p : Port) : Nat :=
  if p.ARCH_RISCV_VECTOR then
    K_SSTATUS_DEFAULT_BASE p ||| p.SSTATUS_VS
  else
    K_SSTATUS_DEFAULT_BASE p

/-- Lines 52-63:
```
frame = (rt_hw_switch_frame_t)((rt_ubase_t)sp - sizeof(struct rt_hw_switch_frame));
rt_memset(frame, 0, sizeof(struct rt_hw_switch_frame));
frame->regs[RT_HW_SWITCH_CONTEXT_RA] = ra;
frame->regs[RT_HW_SWITCH_CONTEXT_SSTATUS] = sstatus;
return (void *)frame;
```
The result is the returned pointer and the memory after the call. -/
def _rt_hw_stack_init (p : Port) (m : Mem) (sp ra sstatus : Nat) : Nat × Mem :=
  let frame := wsub sp p.frameSize
  let m1 := rt_memset m frame 0 p.frameSize
  let m2 := store64 m1 (frame + 8 * p.RT_HW_SWITCH_CONTEXT_RA) ra
  let m3 := store64 m2 (frame + 8 * p.RT_HW_SWITCH_CONTEXT_SSTATUS) sstatus
  (frame, m3)

/-- The stack pointer of `rt_hw_stack_init` when it calls `_rt_hw_stack_init`
(lines 94-101): `stack_addr` rounded down to 16, then four `--sp`. -/
def carveSp (stack_addr : Nat) : Nat :=
  wsub (wsub (wsub (wsub (RT_ALIGN_DOWN stack_addr 16) 8) 8) 8) 8

/-- Lines 89-106:
```
sp = (rt_ubase_t *)RT_ALIGN_DOWN((rt_ubase_t)sp, 16);
(*--sp) = (rt_ubase_t)tentry;
(*--sp) = (rt_ubase_t)parameter;
(*--sp) = (rt_ubase_t)texit;
--sp;   /* alignment */
return _rt_hw_stack_init(sp, (rt_ubase_t)_rt_thread_entry, K_SSTATUS_DEFAULT);
```
`sp` is an `rt_ubase_t *`, so each `--sp` is 8 bytes. The result is the
returned pointer and the memory after the call. -/
def rt_hw_stack_init (p : Port) (m : Mem) (tentry parameter stack_addr texit : Nat) :
    Nat × Mem :=
  let sp := RT_ALIGN_DOWN stack_addr 16
  let sp := wsub sp 8
  let m := store64 m sp tentry
  let sp := wsub sp 8
  let m := store64 m sp parameter
  let sp := wsub sp 8
  let m := store64 m sp texit
  let sp := wsub sp 8
  _rt_hw_stack_init p m sp p.rt_thread_entry (K_SSTATUS_DEFAULT p)

/-- A concrete instance of the parameters, used to instantiate the theorems:
a frame of 16 slots with `sstatus` in slot 0 and `ra` in slot 13, the `sstatus`
bits of the RISC-V privileged architecture, FPU on and vector off. -/
def rv64Port : Port :=
  { RT_HW_SWITCH_CONTEXT_SIZE := 16
    RT_HW_SWITCH_CONTEXT_RA := 13
    RT_HW_SWITCH_CONTEXT_SSTATUS := 0
    SSTATUS_SPP := 0x100
    SSTATUS_SPIE := 0x20
    SSTATUS_SUM := 0x40000
    SSTATUS_FS := 0x6000
    SSTATUS_VS := 0x600
    ARCH_RISCV_FPU := true
    ARCH_RISCV_VECTOR := false
    rt_thread_entry := 0x80200400 }

/-! ## Secondary-core bring-up (`RT_USING_SMP`) -/

/-- The arguments of one call `sbi_hsm_hart_start(hart, start_addr, priv)`. -/
structure HartStart where
  hart : Nat
  start_addr : Nat
  priv : Nat
  deriving DecidableEq, Repr

/-- What `rt_hw_secondary_cpu_up` does to the outside: the firmware state, the
calls of `sbi_hsm_hart_start` in the order issued, each with the status it
returned, and the lines printed by `rt_kprintf`, each the pair `(hart, ret)`
of its two `%d` arguments. -/
structure BringUp (σ : Type) where
  fw : σ
  calls : List (HartStart × Int)
  log : List (Int × Int)

/-- Lines 197-205, the loop body for one value of `hart`. The firmware is
any function from its state and the call to a status and a new state.
```
if (hart == boot_hartid) continue;
ret = sbi_hsm_hart_start((unsigned long)hart, (unsigned long)entry_pa, 0UL);
if (ret)
    rt_kprintf("sbi_hsm_hart_start failed for hart %d: %d\n", hart, ret);
``` -/
def secondary_cpu_up_body {σ : Type} (sbi_hsm_hart_start : σ → HartStart → Int × σ)
    (boot_hartid : Int) (entry_pa : Nat) (st : BringUp σ) (hart : Nat) : BringUp σ :=
  if (hart : Int) = boot_hartid then st
  else
    let call : HartStart := { hart := hart, start_addr := entry_pa, priv := 0 }
    let r := sbi_hsm_hart_start st.fw call
    let ret := r.1
    let st1 : BringUp σ := { st with fw := r.2, calls := st.calls ++ [(call, ret)] }
    if ret ≠ 0 then
      { st1 with log := st1.log ++ [((hart : Int), ret)] }
    else st1

/-- Lines 187-207: `entry_pa = (rt_uint64_t)&_start;` then
`for (hart = 0; hart < RT_CPUS_NR; hart++)` over the loop body; `start` is the
address of `_start`. The loop variable takes the values `0 .. RT_CPUS_NR - 1`
in order and the body does not assign it. -/
def rt_hw_secondary_cpu_up {σ : Type} (RT_CPUS_NR : Nat) (boot_hartid : Int) (start : Nat)
    (sbi_hsm_hart_start : σ → HartStart → Int × σ) (fw : σ) : BringUp σ :=
  let entry_pa := start
  (List.range RT_CPUS_NR).foldl
    (secondary_cpu_up_body sbi_hsm_hart_start boot_hartid entry_pa)
    { fw := fw, calls := [], log := [] }

/-- The calls issued, without their results. -/
def BringUp.issued {σ : Type} (st : BringUp σ) : List HartStart :=
  st.calls.map Prod.fst

/-- The firmware applied to a list of calls, one after the other from state
`s`: the firmware state after the last call, and each call with the status the
firmware returned for it. -/
def runFirmware {σ : Type} (sbi_hsm_hart_start : σ → HartStart → Int × σ) :
    σ → List HartStart → σ × List (HartStart × Int)
  | s, [] => (s, [])
  | s, c :: cs =>
    ((runFirmware sbi_hsm_hart_start (sbi_hsm_hart_start s c).2 cs).1,
     (c, (sbi_hsm_hart_start s c).1)
       :: (runFirmware sbi_hsm_hart_start (sbi_hsm_hart_start s c).2 cs).2)

/-! ## Theorems: context-switch request -/

/-- C1. `rt_hw_context_switch_interrupt`, for every prior state of the three
cells and every argument: the "from" cell is unchanged when the pending flag
was non-zero and becomes the argument `from` when it was 0; the "to" cell
becomes the argument `to`; the flag becomes 1; and the `from_thread` and
`to_thread` arguments have no effect on the resulting state. -/
theorem rt_hw_context_switch_interrupt_effect (s : SwitchCells)
    (from_ to_ from_thread to_thread : Nat) :
    (rt_hw_context_switch_interrupt s from_ to_ from_thread to_thread).rt_interrupt_from_thread
        = (if s.rt_thread_switch_interrupt_flag = 0 then from_
           else s.rt_interrupt_from_thread)
    ∧ (rt_hw_context_switch_interrupt s from_ to_ from_thread to_thread).rt_interrupt_to_thread
        = to_
    ∧ (rt_hw_context_switch_interrupt s from_ to_
        from_thread to_thread).rt_thread_switch_interrupt_flag = 1
    ∧ ∀ from_thread2 to_thread2 : Nat,
        rt_hw_context_switch_interrupt s from_ to_ from_thread2 to_thread2
          = rt_hw_context_switch_interrupt s from_ to_ from_thread to_thread := by
  unfold rt_hw_context_switch_interrupt
  by_cases h : s.rt_thread_switch_interrupt_flag = 0 <;> simp [h]

/-- Appending one request is one more call. -/
theorem requestAll_concat (s : SwitchCells) (l : List SwitchRequest) (r : SwitchRequest) :
    requestAll s (l ++ [r])
      = rt_hw_context_switch_interrupt (requestAll s l) r.from_ r.to_ r.from_thread r.to_thread := by
  simp [requestAll, List.foldl_append]

/-- Once a switch is pending, further requests keep the "from" cell. -/
theorem requestAll_from_pending (reqs : List SwitchRequest) (s : SwitchCells)
    (h : s.rt_thread_switch_interrupt_flag ≠ 0) :
    (requestAll s reqs).rt_interrupt_from_thread = s.rt_interrupt_from_thread := by
  induction reqs generalizing s with
  | nil => rfl
  | cons r rs ih =>
    have hstep := ih (rt_hw_context_switch_interrupt s r.from_ r.to_ r.from_thread r.to_thread)
      (by simp [rt_hw_context_switch_interrupt])
    simp only [requestAll, List.foldl_cons] at hstep ⊢
    rw [hstep]
    simp [rt_hw_context_switch_interrupt, h]

/-- After a non-empty sequence of requests the "to" cell is the `to` of the
last request and the flag is 1, whatever the state before. -/
theorem requestAll_to_flag (reqs : List SwitchRequest) (hne : reqs ≠ []) (s : SwitchCells) :
    (requestAll s reqs).rt_interrupt_to_thread = (reqs.getLast hne).to_
    ∧ (requestAll s reqs).rt_thread_switch_interrupt_flag = 1 := by
  induction reqs using List.reverseRecOn with
  | nil => exact absurd rfl hne
  | append_singleton l a _ =>
    rw [requestAll_concat]
    simp [rt_hw_context_switch_interrupt]

/-- C2. Coalescing: from a state with no switch pending, after every
non-empty sequence of requests with no consumption in between, the cells hold
the `from` of the first request, the `to` of the last request, and flag 1. -/
theorem request_coalescing (s : SwitchCells) (reqs : List SwitchRequest) (hne : reqs ≠ [])
    (h : s.rt_thread_switch_interrupt_flag = 0) :
    (requestAll s reqs).rt_interrupt_from_thread = (reqs.head hne).from_
    ∧ (requestAll s reqs).rt_interrupt_to_thread = (reqs.getLast hne).to_
    ∧ (requestAll s reqs).rt_thread_switch_interrupt_flag = 1 := by
  refine ⟨?_, requestAll_to_flag reqs hne s⟩
  cases reqs with
  | nil => exact absurd rfl hne
  | cons r rs =>
    have hp := requestAll_from_pending rs
      (rt_hw_context_switch_interrupt s r.from_ r.to_ r.from_thread r.to_thread)
      (by simp [rt_hw_context_switch_interrupt])
    simp only [requestAll, List.foldl_cons, List.head_cons] at hp ⊢
    rw [hp]
    simp [rt_hw_context_switch_interrupt, h]

/-- C2, witness: from the initial cells, `(A -> B)` then `(B -> C)` with
`A = 10`, `B = 20`, `C = 30` leaves `from = A` (not `B`), `to = C`, flag 1. -/
theorem request_coalescing_witness :
    SwitchCells.init.rt_thread_switch_interrupt_flag = 0
    ∧ (requestAll SwitchCells.init [⟨10, 20, 1, 2⟩, ⟨20, 30, 2, 3⟩]).rt_interrupt_from_thread = 10
    ∧ (requestAll SwitchCells.init [⟨10, 20, 1, 2⟩, ⟨20, 30, 2, 3⟩]).rt_interrupt_to_thread = 30
    ∧ (requestAll SwitchCells.init
        [⟨10, 20, 1, 2⟩, ⟨20, 30, 2, 3⟩]).rt_thread_switch_interrupt_flag = 1 :=
  ⟨rfl, request_coalescing SwitchCells.init [⟨10, 20, 1, 2⟩, ⟨20, 30, 2, 3⟩] (by simp) rfl⟩

/-! ## Theorems: IRQ switch-flag check -/

/-- C3, the code at a descriptor whose flag is set: the call returns 1 and
leaves `irq_switch_flag` at 1 (it is not cleared), and a second call on the
resulting descriptor returns 1 again. -/
theorem rt_percpu_check_irq_switch_flag_not_cleared :
    rt_percpu_check_irq_switch_flag { current_thread := 7, irq_switch_flag := 1 }
      = (1, { current_thread := 7, irq_switch_flag := 1 })
    ∧ (rt_percpu_check_irq_switch_flag
        (rt_percpu_check_irq_switch_flag
          { current_thread := 7, irq_switch_flag := 1 }).2).1 = 1 := by
  decide

/-- C4. `rt_percpu_check_irq_switch_flag` returns 1 exactly when the calling
core's `irq_switch_flag` is non-zero and 0 exactly when it is zero, never
another value, and with the flag clear the descriptor is unchanged. -/
theorem rt_percpu_check_irq_switch_flag_result (pcpu : rt_cpu) :
    ((rt_percpu_check_irq_switch_flag pcpu).1 = 1 ↔ pcpu.irq_switch_flag ≠ 0)
    ∧ ((rt_percpu_check_irq_switch_flag pcpu).1 = 0 ↔ pcpu.irq_switch_flag = 0)
    ∧ ((rt_percpu_check_irq_switch_flag pcpu).1 = 0
        ∨ (rt_percpu_check_irq_switch_flag pcpu).1 = 1)
    ∧ (pcpu.irq_switch_flag = 0 → (rt_percpu_check_irq_switch_flag pcpu).2 = pcpu) := by
  unfold rt_percpu_check_irq_switch_flag
  by_cases h : pcpu.irq_switch_flag = 0 <;> simp [h]

/-- C4, witness: flag clear gives 0 and the same descriptor; flag set gives 1. -/
theorem rt_percpu_check_irq_switch_flag_result_witness :
    (rt_percpu_check_irq_switch_flag { current_thread := 7, irq_switch_flag := 0 }).1 = 0
    ∧ (rt_percpu_check_irq_switch_flag { current_thread := 7, irq_switch_flag := 0 }).2
        = { current_thread := 7, irq_switch_flag := 0 }
    ∧ (rt_percpu_check_irq_switch_flag { current_thread := 7, irq_switch_flag := 3 }).1 = 1 :=
  ⟨((rt_percpu_check_irq_switch_flag_result ⟨7, 0⟩).2.1).2 rfl,
   (rt_percpu_check_irq_switch_flag_result ⟨7, 0⟩).2.2.2 rfl,
   ((rt_percpu_check_irq_switch_flag_result ⟨7, 3⟩).1).2 (by decide)⟩

/-! ## Theorems: secondary-core bring-up -/

section BringUp

variable {σ : Type}

/-- The harts that receive a call when the loop has run over `0 .. n - 1`. -/
theorem issued_range (sbi : σ → HartStart → Int × σ) (b : Int) (e : Nat) (fw : σ) (n : Nat) :
    ((List.range n).foldl (secondary_cpu_up_body sbi b e)
        { fw := fw, calls := [], log := [] }).issued
      = ((List.range n).filter (fun h : Nat => decide ((h : Int) ≠ b))).map
          (fun h => ({ hart := h, start_addr := e, priv := 0 } : HartStart)) := by
  induction n with
  | zero => rfl
  | succ k ih =>
    rw [List.range_succ, List.foldl_append, List.filter_append, List.map_append, ← ih]
    simp only [List.foldl_cons, List.foldl_nil]
    by_cases hk : (k : Int) = b
    · simp [secondary_cpu_up_body, hk]
    · by_cases hr : (sbi ((List.range k).foldl (secondary_cpu_up_body sbi b e)
          { fw := fw, calls := [], log := [] }).fw
          { hart := k, start_addr := e, priv := 0 }).1 = 0
      · simp [secondary_cpu_up_body, hk, hr, BringUp.issued]
      · simp [secondary_cpu_up_body, hk, hr, BringUp.issued]

/-- The number of indices below `n` other than `b`. -/
theorem filter_ne_length (b : Int) (n : Nat) :
    ((List.range n).filter (fun h : Nat => decide ((h : Int) ≠ b))).length
      = if 0 ≤ b ∧ b < (n : Int) then n - 1 else n := by
  induction n with
  | zero =>
    have : ¬ (0 ≤ b ∧ b < ((0 : Nat) : Int)) := by omega
    simp
  | succ k ih =>
    have hsing : ([k].filter (fun h : Nat => decide ((h : Int) ≠ b))).length
        = if (k : Int) = b then 0 else 1 := by
      by_cases hk : (k : Int) = b <;> simp [hk]
    rw [List.range_succ, List.filter_append, List.length_append, ih, hsing]
    split_ifs <;> omega

/-- One more call at the end of a firmware run. -/
theorem runFirmware_concat (sbi : σ → HartStart → Int × σ) (l : List HartStart)
    (c : HartStart) (s : σ) :
    runFirmware sbi s (l ++ [c])
      = ((sbi (runFirmware sbi s l).1 c).2,
         (runFirmware sbi s l).2 ++ [(c, (sbi (runFirmware sbi s l).1 c).1)]) := by
  induction l generalizing s with
  | nil => rfl
  | cons a as ih =>
    have h := ih (sbi s a).2
    show ((runFirmware sbi (sbi s a).2 (as ++ [c])).1,
        (a, (sbi s a).1) :: (runFirmware sbi (sbi s a).2 (as ++ [c])).2) = _
    rw [h]
    rfl

/-- The firmware has been applied to exactly the calls issued, in order, each
from the state the previous call left: the final firmware state and the
recorded statuses are those of that run. -/
theorem firmware_range (sbi : σ → HartStart → Int × σ) (b : Int) (e : Nat) (fw : σ) (n : Nat) :
    (((List.range n).foldl (secondary_cpu_up_body sbi b e)
        { fw := fw, calls := [], log := [] }).fw,
     ((List.range n).foldl (secondary_cpu_up_body sbi b e)
        { fw := fw, calls := [], log := [] }).calls)
      = runFirmware sbi fw ((List.range n).foldl (secondary_cpu_up_body sbi b e)
          { fw := fw, calls := [], log := [] }).issued := by
  induction n with
  | zero => rfl
  | succ k ih =>
    rw [List.range_succ, List.foldl_append]
    simp only [List.foldl_cons, List.foldl_nil]
    generalize (List.range k).foldl (secondary_cpu_up_body sbi b e)
      { fw := fw, calls := [], log := [] } = st at ih ⊢
    have h1 : st.fw = (runFirmware sbi fw st.issued).1 := congrArg Prod.fst ih
    have h2 : st.calls = (runFirmware sbi fw st.issued).2 := congrArg Prod.snd ih
    by_cases hk : (k : Int) = b
    · simpa [secondary_cpu_up_body, hk] using ih
    · have hstep : (secondary_cpu_up_body sbi b e st k).fw
            = (sbi st.fw { hart := k, start_addr := e, priv := 0 }).2
          ∧ (secondary_cpu_up_body sbi b e st k).calls
            = st.calls ++ [({ hart := k, start_addr := e, priv := 0 },
                (sbi st.fw { hart := k, start_addr := e, priv := 0 }).1)] := by
        by_cases hr : (sbi st.fw { hart := k, start_addr := e, priv := 0 }).1 = 0
        · simp [secondary_cpu_up_body, hk, hr]
        · simp [secondary_cpu_up_body, hk, hr]
      have hiss : (secondary_cpu_up_body sbi b e st k).issued
          = st.issued ++ [{ hart := k, start_addr := e, priv := 0 }] := by
        simp [BringUp.issued, hstep.2]
      rw [hiss, runFirmware_concat, hstep.1, hstep.2, ← h1, ← h2]

/-- C5. For every number `N` of configured cores, every boot hart id `b` with
`0 ≤ b < N` and every firmware (any state, any status returned by any call),
`rt_hw_secondary_cpu_up` issues exactly `N - 1` calls of `sbi_hsm_hart_start`:
one for each hart index of `0 .. N - 1` other than `b`, in ascending order,
each with the entry address `_start` and boot argument 0; the boot hart gets
no call. The calls are real: the firmware state afterwards and the statuses
obtained are those of the firmware applied to exactly that list of calls, in
that order. -/
theorem secondary_cpu_up_calls (N : Nat) (b : Int) (start : Nat)
    (sbi : σ → HartStart → Int × σ) (fw : σ) (h0 : 0 ≤ b) (hN : b < (N : Int)) :
    (rt_hw_secondary_cpu_up N b start sbi fw).issued
        = ((List.range N).filter (fun h : Nat => decide ((h : Int) ≠ b))).map
            (fun h => ({ hart := h, start_addr := start, priv := 0 } : HartStart))
    ∧ (rt_hw_secondary_cpu_up N b start sbi fw).issued.length = N - 1
    ∧ List.Pairwise (fun x y => x < y)
        ((rt_hw_secondary_cpu_up N b start sbi fw).issued.map HartStart.hart)
    ∧ (∀ c ∈ (rt_hw_secondary_cpu_up N b start sbi fw).issued,
        (c.hart : Int) ≠ b ∧ c.hart < N ∧ c.start_addr = start ∧ c.priv = 0)
    ∧ (∀ h : Nat, h < N → (h : Int) ≠ b →
        ({ hart := h, start_addr := start, priv := 0 } : HartStart)
          ∈ (rt_hw_secondary_cpu_up N b start sbi fw).issued)
    ∧ ((rt_hw_secondary_cpu_up N b start sbi fw).fw,
       (rt_hw_secondary_cpu_up N b start sbi fw).calls)
        = runFirmware sbi fw
            (((List.range N).filter (fun h : Nat => decide ((h : Int) ≠ b))).map
              (fun h => ({ hart := h, start_addr := start, priv := 0 } : HartStart)))
    ∧ (rt_hw_secondary_cpu_up N b start sbi fw).calls.length = N - 1 := by
  have hiss := issued_range sbi b start fw N
  have hfw : ((rt_hw_secondary_cpu_up N b start sbi fw).fw,
      (rt_hw_secondary_cpu_up N b start sbi fw).calls)
      = runFirmware sbi fw (rt_hw_secondary_cpu_up N b start sbi fw).issued :=
    firmware_range sbi b start fw N
  have hrun : (rt_hw_secondary_cpu_up N b start sbi fw).issued
      = ((List.range N).filter (fun h : Nat => decide ((h : Int) ≠ b))).map
          (fun h => ({ hart := h, start_addr := start, priv := 0 } : HartStart)) := hiss
  have hlen : (rt_hw_secondary_cpu_up N b start sbi fw).issued.length = N - 1 := by
    rw [hrun, List.length_map, filter_ne_length, if_pos ⟨h0, hN⟩]
  refine ⟨hrun, hlen, ?_, ?_, ?_, by rw [← hrun]; exact hfw, ?_⟩
  rotate_left 3
  · rw [← hlen, BringUp.issued, List.length_map]
  · rw [hrun, List.map_map]
    have hid : (HartStart.hart ∘ fun h => ({ hart := h, start_addr := start, priv := 0 } :
        HartStart)) = id := rfl
    rw [hid, List.map_id]
    exact List.Pairwise.filter _ (List.pairwise_lt_range N)
  · intro c hc
    rw [hrun, List.mem_map] at hc
    obtain ⟨h, hh, rfl⟩ := hc
    rw [List.mem_filter, List.mem_range] at hh
    exact ⟨by simpa using hh.2, hh.1, rfl, rfl⟩
  · intro h hlt hne
    rw [hrun, List.mem_map]
    exact ⟨h, by simp [List.mem_filter, hlt, hne], rfl⟩

/-- C5, witness: `N = 4`, `b = 0`, a firmware that keeps the list of the
harts it was asked to start and fails hart 2 with status `-1`: the calls are
for harts 1, 2, 3, with the entry address and argument 0, the firmware has
seen the harts 1, 2, 3 in that order, and the statuses obtained are 0, -1, 0. -/
theorem secondary_cpu_up_calls_witness :
    (0 : Int) ≤ 0 ∧ (0 : Int) < ((4 : Nat) : Int)
    ∧ (rt_hw_secondary_cpu_up 4 0 0x80200000
        (fun (seen : List Nat) c =>
          (if c.hart = 2 then (-1 : Int) else 0, seen ++ [c.hart])) []).issued
      = [{ hart := 1, start_addr := 0x80200000, priv := 0 },
         { hart := 2, start_addr := 0x80200000, priv := 0 },
         { hart := 3, start_addr := 0x80200000, priv := 0 }]
    ∧ ((rt_hw_secondary_cpu_up 4 0 0x80200000
          (fun (seen : List Nat) c =>
            (if c.hart = 2 then (-1 : Int) else 0, seen ++ [c.hart])) []).fw,
       (rt_hw_secondary_cpu_up 4 0 0x80200000
          (fun (seen : List Nat) c =>
            (if c.hart = 2 then (-1 : Int) else 0, seen ++ [c.hart])) []).calls)
      = ([1, 2, 3],
         [({ hart := 1, start_addr := 0x80200000, priv := 0 }, 0),
          ({ hart := 2, start_addr := 0x80200000, priv := 0 }, -1),
          ({ hart := 3, start_addr := 0x80200000, priv := 0 }, 0)]) :=
  ⟨by decide, by decide,
   (secondary_cpu_up_calls 4 0 0x80200000
      (fun (seen : List Nat) c =>
        (if c.hart = 2 then (-1 : Int) else 0, seen ++ [c.hart])) []
      (by decide) (by decide)).1.trans (by decide),
   (secondary_cpu_up_calls 4 0 0x80200000
      (fun (seen : List Nat) c =>
        (if c.hart = 2 then (-1 : Int) else 0, seen ++ [c.hart])) []
      (by decide) (by decide)).2.2.2.2.2.1.trans (by decide)⟩

/-- C10. The number of start calls is `RT_CPUS_NR - 1` when
`0 ≤ boot_hartid < RT_CPUS_NR` and `RT_CPUS_NR` otherwise; when `boot_hartid`
is not a configured core index no hart is skipped: there is one call for every
index `0 .. RT_CPUS_NR - 1`. The calls counted are the ones the firmware
received: the firmware state afterwards and the statuses obtained are those of
the firmware applied to exactly the calls issued, in order. -/
theorem secondary_cpu_up_call_count (N : Nat) (b : Int) (start : Nat)
    (sbi : σ → HartStart → Int × σ) (fw : σ) :
    (rt_hw_secondary_cpu_up N b start sbi fw).issued.length
        = (if 0 ≤ b ∧ b < (N : Int) then N - 1 else N)
    ∧ ((b < 0 ∨ (N : Int) ≤ b) →
        (rt_hw_secondary_cpu_up N b start sbi fw).issued
          = (List.range N).map
              (fun h => ({ hart := h, start_addr := start, priv := 0 } : HartStart)))
    ∧ ((rt_hw_secondary_cpu_up N b start sbi fw).fw,
       (rt_hw_secondary_cpu_up N b start sbi fw).calls)
        = runFirmware sbi fw (rt_hw_secondary_cpu_up N b start sbi fw).issued
    ∧ (runFirmware sbi fw (rt_hw_secondary_cpu_up N b start sbi fw).issued).2.length
        = (if 0 ≤ b ∧ b < (N : Int) then N - 1 else N)
    ∧ ((b < 0 ∨ (N : Int) ≤ b) →
        ((rt_hw_secondary_cpu_up N b start sbi fw).fw,
         (rt_hw_secondary_cpu_up N b start sbi fw).calls)
          = runFirmware sbi fw ((List.range N).map
              (fun h => ({ hart := h, start_addr := start, priv := 0 } : HartStart)))) := by
  have hrun : (rt_hw_secondary_cpu_up N b start sbi fw).issued
      = ((List.range N).filter (fun h : Nat => decide ((h : Int) ≠ b))).map
          (fun h => ({ hart := h, start_addr := start, priv := 0 } : HartStart)) :=
    issued_range sbi b start fw N
  have hfw : ((rt_hw_secondary_cpu_up N b start sbi fw).fw,
      (rt_hw_secondary_cpu_up N b start sbi fw).calls)
      = runFirmware sbi fw (rt_hw_secondary_cpu_up N b start sbi fw).issued :=
    firmware_range sbi b start fw N
  have hlen : (rt_hw_secondary_cpu_up N b start sbi fw).issued.length
      = (if 0 ≤ b ∧ b < (N : Int) then N - 1 else N) := by
    rw [hrun, List.length_map, filter_ne_length]
  have hall : (b < 0 ∨ (N : Int) ≤ b) →
      (rt_hw_secondary_cpu_up N b start sbi fw).issued
        = (List.range N).map
            (fun h => ({ hart := h, start_addr := start, priv := 0 } : HartStart)) := by
    intro hb
    rw [hrun]
    congr 1
    rw [List.filter_eq_self]
    intro h hh
    rw [List.mem_range] at hh
    have : (h : Int) ≠ b := by omega
    simpa using this
  refine ⟨hlen, hall, hfw, ?_, ?_⟩
  · rw [← hlen, ← hfw, BringUp.issued, List.length_map]
  · intro hb
    rw [← hall hb]
    exact hfw

/-- C10, witness: 4 configured cores and `boot_hartid = -1` or `boot_hartid = 4`,
against a firmware that keeps the list of the harts it was asked to start and
fails hart 2: 4 calls, one for each of the harts 0, 1, 2, 3, and the firmware
has seen the harts 0, 1, 2, 3 in that order. -/
theorem secondary_cpu_up_call_count_witness :
    (rt_hw_secondary_cpu_up 4 (-1) 0x80200000
        (fun (seen : List Nat) c =>
          (if c.hart = 2 then (-1 : Int) else 0, seen ++ [c.hart])) []).issued
      = (List.range 4).map
          (fun h => ({ hart := h, start_addr := 0x80200000, priv := 0 } : HartStart))
    ∧ (rt_hw_secondary_cpu_up 4 4 0x80200000
        (fun (seen : List Nat) c =>
          (if c.hart = 2 then (-1 : Int) else 0, seen ++ [c.hart])) []).issued.length
      = 4
    ∧ ((rt_hw_secondary_cpu_up 4 (-1) 0x80200000
          (fun (seen : List Nat) c =>
            (if c.hart = 2 then (-1 : Int) else 0, seen ++ [c.hart])) []).fw,
       (rt_hw_secondary_cpu_up 4 (-1) 0x80200000
          (fun (seen : List Nat) c =>
            (if c.hart = 2 then (-1 : Int) else 0, seen ++ [c.hart])) []).calls)
      = ([0, 1, 2, 3],
         [({ hart := 0, start_addr := 0x80200000, priv := 0 }, 0),
          ({ hart := 1, start_addr := 0x80200000, priv := 0 }, 0),
          ({ hart := 2, start_addr := 0x80200000, priv := 0 }, -1),
          ({ hart := 3, start_addr := 0x80200000, priv := 0 }, 0)]) :=
  ⟨(secondary_cpu_up_call_count 4 (-1) 0x80200000
      (fun (seen : List Nat) c =>
        (if c.hart = 2 then (-1 : Int) else 0, seen ++ [c.hart])) []).2.1
      (Or.inl (by decide)),
   (secondary_cpu_up_call_count 4 4 0x80200000
      (fun (seen : List Nat) c =>
        (if c.hart = 2 then (-1 : Int) else 0, seen ++ [c.hart])) []).1.trans
      (by decide),
   ((secondary_cpu_up_call_count 4 (-1) 0x80200000
      (fun (seen : List Nat) c =>
        (if c.hart = 2 then (-1 : Int) else 0, seen ++ [c.hart])) []).2.2.2.2
      (Or.inl (by decide))).trans (by decide)⟩

end BringUp

/-! ## Theorems: memory -/

/-- A run of byte stores over `n` consecutive addresses from `a`, pointwise:
the byte at `x` is the one stored at offset `x - a` when that offset is below
`n`, and the old byte otherwise. -/
theorem foldl_write8_apply (f : Nat → Nat) (a n : Nat) (hn : n ≤ 2 ^ 64) (m : Mem) (x : Nat) :
    ((List.range n).foldl (fun mem i => write8 mem (a + i) (f i)) m) x
      = if x < 2 ^ 64 ∧ wsub x a < n then f (wsub x a) % 256 else m x := by
  induction n with
  | zero => simp
  | succ k ih =>
    rw [List.range_succ, List.foldl_append]
    simp only [List.foldl_cons, List.foldl_nil]
    have hstep : ∀ M : Mem, write8 M (a + k) (f k) x
        = if x = (a + k) % 2 ^ 64 then f k % 256 else M x := fun _ => rfl
    rw [hstep, ih (by omega)]
    by_cases hx : x = (a + k) % 2 ^ 64
    · have hw : wsub x a = k := by unfold wsub; omega
      have hlt : x < 2 ^ 64 := by omega
      rw [if_pos hx, if_pos ⟨hlt, by omega⟩, hw]
    · rw [if_neg hx]
      by_cases hc : x < 2 ^ 64 ∧ wsub x a < k
      · rw [if_pos hc, if_pos ⟨hc.1, by omega⟩]
      · rw [if_neg hc, if_neg]
        intro hc2
        have hw : wsub x a = k := by omega
        apply hx
        unfold wsub at hw
        omega

theorem store64_apply (m : Mem) (a v x : Nat) :
    store64 m a v x
      = if x < 2 ^ 64 ∧ wsub x a < 8 then (v / 256 ^ wsub x a) % 256 else m x :=
  foldl_write8_apply (fun i => v / 256 ^ i) a 8 (by norm_num) m x

theorem rt_memset_apply (m : Mem) (s c n : Nat) (hn : n ≤ 2 ^ 64) (x : Nat) :
    rt_memset m s c n x = if x < 2 ^ 64 ∧ wsub x s < n then c % 256 else m x :=
  foldl_write8_apply (fun _ => c) s n hn m x

theorem load64_eq (m : Mem) (a : Nat) :
    load64 m a
      = m ((a + 0) % 2 ^ 64) * 256 ^ 0 + m ((a + 1) % 2 ^ 64) * 256 ^ 1
        + m ((a + 2) % 2 ^ 64) * 256 ^ 2 + m ((a + 3) % 2 ^ 64) * 256 ^ 3
        + m ((a + 4) % 2 ^ 64) * 256 ^ 4 + m ((a + 5) % 2 ^ 64) * 256 ^ 5
        + m ((a + 6) % 2 ^ 64) * 256 ^ 6 + m ((a + 7) % 2 ^ 64) * 256 ^ 7 := by
  simp [load64, List.range_succ]

/-- Two memories that agree on the eight bytes from `a` hold the same word
there. -/
theorem load64_congr (m1 m2 : Mem) (a : Nat)
    (h : ∀ i, i < 8 → m1 ((a + i) % 2 ^ 64) = m2 ((a + i) % 2 ^ 64)) :
    load64 m1 a = load64 m2 a := by
  rw [load64_eq, load64_eq, h 0 (by omega), h 1 (by omega), h 2 (by omega), h 3 (by omega),
    h 4 (by omega), h 5 (by omega), h 6 (by omega), h 7 (by omega)]

/-- A word read back from where it was stored. -/
theorem load64_store64_same (m : Mem) (a v : Nat) :
    load64 (store64 m a v) a = v % 2 ^ 64 := by
  have hb : ∀ i, i < 8 → store64 m a v ((a + i) % 2 ^ 64) = (v / 256 ^ i) % 256 := by
    intro i hi
    have hw : wsub ((a + i) % 2 ^ 64) a = i := by unfold wsub; omega
    rw [store64_apply, if_pos ⟨by omega, by omega⟩, hw]
  rw [load64_eq, hb 0 (by omega), hb 1 (by omega), hb 2 (by omega), hb 3 (by omega),
    hb 4 (by omega), hb 5 (by omega), hb 6 (by omega), hb 7 (by omega)]
  norm_num
  omega

/-- A word store at `b` leaves the word at `a` when the two words are
disjoint. -/
theorem load64_store64_disjoint (m : Mem) (a b v : Nat)
    (h1 : 8 ≤ wsub a b) (h2 : wsub a b + 8 ≤ 2 ^ 64) :
    load64 (store64 m b v) a = load64 m a := by
  apply load64_congr
  intro i hi
  rw [store64_apply, if_neg]
  intro hc
  unfold wsub at h1 h2 hc
  omega

/-- A zero fill of `n` bytes from `s` leaves the word at `a` when the word
lies outside the filled bytes. -/
theorem load64_memset_disjoint (m : Mem) (a s c n : Nat) (hn : n ≤ 2 ^ 64)
    (h1 : n ≤ wsub a s) (h2 : wsub a s + 8 ≤ 2 ^ 64) :
    load64 (rt_memset m s c n) a = load64 m a := by
  apply load64_congr
  intro i hi
  rw [rt_memset_apply m s c n hn, if_neg]
  intro hc
  unfold wsub at h1 h2 hc
  omega

/-- A word inside bytes filled with 0 is 0. -/
theorem load64_memset_zero (m : Mem) (a s n : Nat) (hn : n ≤ 2 ^ 64)
    (h : wsub a s + 8 ≤ n) :
    load64 (rt_memset m s 0 n) a = 0 := by
  have hb : ∀ i, i < 8 → rt_memset m s 0 n ((a + i) % 2 ^ 64) = 0 := by
    intro i hi
    rw [rt_memset_apply m s 0 n hn, if_pos]
    refine ⟨by omega, ?_⟩
    unfold wsub at h ⊢
    omega
  rw [load64_eq, hb 0 (by omega), hb 1 (by omega), hb 2 (by omega), hb 3 (by omega),
    hb 4 (by omega), hb 5 (by omega), hb 6 (by omega), hb 7 (by omega)]
  simp


/-! ## Theorems: initial stack frame -/

theorem RT_ALIGN_DOWN_16 (a : Nat) :
    RT_ALIGN_DOWN a 16 % 16 = 0 ∧ RT_ALIGN_DOWN a 16 ≤ a ∧ a < RT_ALIGN_DOWN a 16 + 16 := by
  unfold RT_ALIGN_DOWN
  omega

/-- Rounding down to a multiple of 16 is clearing the low four bits of the
64-bit word, `size & ~(16 - 1)`. -/
theorem RT_ALIGN_DOWN_mask (size : Nat) (h : size < 2 ^ 64) :
    size &&& (2 ^ 64 - 16) = RT_ALIGN_DOWN size 16 := by
  have e1 : RT_ALIGN_DOWN size 16 = (size >>> 4) <<< 4 := by
    unfold RT_ALIGN_DOWN
    rw [Nat.shiftRight_eq_div_pow, Nat.shiftLeft_eq]
    omega
  have e2 : (2 ^ 64 - 16 : Nat) = (2 ^ 60 - 1) <<< 4 := by
    rw [Nat.shiftLeft_eq]; norm_num
  rw [e1, e2]
  apply Nat.eq_of_testBit_eq
  intro i
  rw [Nat.testBit_land, Nat.testBit_shiftLeft, Nat.testBit_shiftLeft, Nat.testBit_shiftRight,
    Nat.testBit_two_pow_sub_one]
  by_cases h4 : 4 ≤ i
  · have e3 : 4 + (i - 4) = i := by omega
    rw [e3]
    by_cases h64 : i < 64
    · have : i - 4 < 60 := by omega
      simp [h4, this]
    · have hx : size.testBit i = false := by
        apply Nat.testBit_lt_two_pow
        calc size < 2 ^ 64 := h
          _ ≤ 2 ^ i := Nat.pow_le_pow_right (by norm_num) (by omega)
      simp [hx]
  · simp [h4]

theorem carveSp_eq (stack_addr : Nat) :
    carveSp stack_addr = wsub (RT_ALIGN_DOWN stack_addr 16) 32 := by
  unfold carveSp wsub
  omega

theorem K_SSTATUS_DEFAULT_lt (p : Port) (hp : p.WellFormed) : K_SSTATUS_DEFAULT p < 2 ^ 64 := by
  obtain ⟨_, _, _, _, h1, h2, h3, h4, h5, _⟩ := hp
  unfold K_SSTATUS_DEFAULT K_SSTATUS_DEFAULT_BASE
  split_ifs
  · exact Nat.or_lt_two_pow
      (Nat.or_lt_two_pow (Nat.or_lt_two_pow (Nat.or_lt_two_pow h1 h2) h3) h4) h5
  · exact Nat.or_lt_two_pow (Nat.or_lt_two_pow (Nat.or_lt_two_pow h1 h2) h3) h5
  · exact Nat.or_lt_two_pow (Nat.or_lt_two_pow (Nat.or_lt_two_pow h1 h2) h3) h4
  · exact Nat.or_lt_two_pow (Nat.or_lt_two_pow h1 h2) h3

/-- The memory after `rt_hw_stack_init`, byte by byte: the two register
slots, then the zero-filled frame, then the three bootstrap words, then the
memory as it was. `T` is the aligned top and `fr` the returned pointer. -/
theorem rt_hw_stack_init_bytes (p : Port) (hp : p.WellFormed) (m : Mem)
    (tentry parameter stack_addr texit x : Nat) :
    (rt_hw_stack_init p m tentry parameter stack_addr texit).1
        = wsub (RT_ALIGN_DOWN stack_addr 16) (32 + p.frameSize)
    ∧ (rt_hw_stack_init p m tentry parameter stack_addr texit).2 x
      = if x < 2 ^ 64 ∧ wsub x (wsub (RT_ALIGN_DOWN stack_addr 16) (32 + p.frameSize)
            + 8 * p.RT_HW_SWITCH_CONTEXT_SSTATUS) < 8 then
          (K_SSTATUS_DEFAULT p / 256 ^ wsub x (wsub (RT_ALIGN_DOWN stack_addr 16)
            (32 + p.frameSize) + 8 * p.RT_HW_SWITCH_CONTEXT_SSTATUS)) % 256
        else if x < 2 ^ 64 ∧ wsub x (wsub (RT_ALIGN_DOWN stack_addr 16) (32 + p.frameSize)
            + 8 * p.RT_HW_SWITCH_CONTEXT_RA) < 8 then
          (p.rt_thread_entry / 256 ^ wsub x (wsub (RT_ALIGN_DOWN stack_addr 16)
            (32 + p.frameSize) + 8 * p.RT_HW_SWITCH_CONTEXT_RA)) % 256
        else if x < 2 ^ 64
            ∧ wsub x (wsub (RT_ALIGN_DOWN stack_addr 16) (32 + p.frameSize)) < p.frameSize then
          0
        else if x < 2 ^ 64 ∧ wsub x (wsub (RT_ALIGN_DOWN stack_addr 16) 24) < 8 then
          (texit / 256 ^ wsub x (wsub (RT_ALIGN_DOWN stack_addr 16) 24)) % 256
        else if x < 2 ^ 64 ∧ wsub x (wsub (RT_ALIGN_DOWN stack_addr 16) 16) < 8 then
          (parameter / 256 ^ wsub x (wsub (RT_ALIGN_DOWN stack_addr 16) 16)) % 256
        else if x < 2 ^ 64 ∧ wsub x (wsub (RT_ALIGN_DOWN stack_addr 16) 8) < 8 then
          (tentry / 256 ^ wsub x (wsub (RT_ALIGN_DOWN stack_addr 16) 8)) % 256
        else m x := by
  have hF : p.frameSize ≤ 2 ^ 64 := by have := hp.2.2.2.1; omega
  have e2 : wsub (wsub (RT_ALIGN_DOWN stack_addr 16) 8) 8
      = wsub (RT_ALIGN_DOWN stack_addr 16) 16 := by unfold wsub; omega
  have e3 : wsub (wsub (RT_ALIGN_DOWN stack_addr 16) 16) 8
      = wsub (RT_ALIGN_DOWN stack_addr 16) 24 := by unfold wsub; omega
  have e4 : wsub (wsub (wsub (RT_ALIGN_DOWN stack_addr 16) 24) 8) p.frameSize
      = wsub (RT_ALIGN_DOWN stack_addr 16) (32 + p.frameSize) := by unfold wsub; omega
  simp only [rt_hw_stack_init, _rt_hw_stack_init, e2, e3, e4, store64_apply,
    rt_memset_apply _ _ _ _ hF]
  simp


/-- A word whose eight bytes are the bytes of `v`. -/
theorem load64_of_bytes (m : Mem) (a v : Nat)
    (h : ∀ i, i < 8 → m ((a + i) % 2 ^ 64) = (v / 256 ^ i) % 256) :
    load64 m a = v % 2 ^ 64 := by
  rw [load64_eq, h 0 (by omega), h 1 (by omega), h 2 (by omega), h 3 (by omega),
    h 4 (by omega), h 5 (by omega), h 6 (by omega), h 7 (by omega)]
  norm_num
  omega

/-- The word at an address depends on the address modulo `2 ^ 64`. -/
theorem load64_mod (m : Mem) (a : Nat) : load64 m (a % 2 ^ 64) = load64 m a := by
  simp only [load64_eq, Nat.mod_add_mod]

theorem wsub_congr (x a b : Nat) (h : a % 2 ^ 64 = b % 2 ^ 64) : wsub x a = wsub x b := by
  unfold wsub
  rw [h]

/-- The address `d` bytes above `fr` lies in the `n` bytes from `fr + c`
exactly when `c ≤ d < c + n`. -/
theorem in_region (fr d c n : Nat) (hd : d < 2 ^ 64) (hc : c + n ≤ 2 ^ 64) :
    ((fr + d) % 2 ^ 64 < 2 ^ 64 ∧ wsub ((fr + d) % 2 ^ 64) (fr + c) < n) ↔ (c ≤ d ∧ d < c + n) := by
  unfold wsub
  omega

theorem wsub_off (fr d c : Nat) (hd : d < 2 ^ 64) (hc : c ≤ d) :
    wsub ((fr + d) % 2 ^ 64) (fr + c) = d - c := by
  unfold wsub
  omega

/-- The layout written by `rt_hw_stack_init`, by offset `d` from the returned
pointer: the `sstatus` and `ra` slots, the rest of the frame zero, (the
padding word untouched,) `texit`, `parameter`, `tentry`, and everything else
untouched. -/
theorem rt_hw_stack_init_layout (p : Port) (hp : p.WellFormed) (m : Mem)
    (tentry parameter stack_addr texit d : Nat) (hd : d < 2 ^ 64) :
    (rt_hw_stack_init p m tentry parameter stack_addr texit).2
        (((rt_hw_stack_init p m tentry parameter stack_addr texit).1 + d) % 2 ^ 64)
      = if 8 * p.RT_HW_SWITCH_CONTEXT_SSTATUS ≤ d ∧ d < 8 * p.RT_HW_SWITCH_CONTEXT_SSTATUS + 8 then
          (K_SSTATUS_DEFAULT p / 256 ^ (d - 8 * p.RT_HW_SWITCH_CONTEXT_SSTATUS)) % 256
        else if 8 * p.RT_HW_SWITCH_CONTEXT_RA ≤ d ∧ d < 8 * p.RT_HW_SWITCH_CONTEXT_RA + 8 then
          (p.rt_thread_entry / 256 ^ (d - 8 * p.RT_HW_SWITCH_CONTEXT_RA)) % 256
        else if d < p.frameSize then 0
        else if p.frameSize + 8 ≤ d ∧ d < p.frameSize + 16 then
          (texit / 256 ^ (d - (p.frameSize + 8))) % 256
        else if p.frameSize + 16 ≤ d ∧ d < p.frameSize + 24 then
          (parameter / 256 ^ (d - (p.frameSize + 16))) % 256
        else if p.frameSize + 24 ≤ d ∧ d < p.frameSize + 32 then
          (tentry / 256 ^ (d - (p.frameSize + 24))) % 256
        else
          m (((rt_hw_stack_init p m tentry parameter stack_addr texit).1 + d) % 2 ^ 64) := by
  obtain ⟨hfr, hb⟩ := rt_hw_stack_init_bytes p hp m tentry parameter stack_addr texit
    (((rt_hw_stack_init p m tentry parameter stack_addr texit).1 + d) % 2 ^ 64)
  obtain ⟨hra, hss, _, hfit, _⟩ := hp
  have hF : p.frameSize = 8 * p.RT_HW_SWITCH_CONTEXT_SIZE := rfl
  rw [hb, ← hfr]
  have a1 : wsub (RT_ALIGN_DOWN stack_addr 16) 24 % 2 ^ 64
      = ((rt_hw_stack_init p m tentry parameter stack_addr texit).1
          + (p.frameSize + 8)) % 2 ^ 64 := by
    rw [hfr]; unfold wsub; omega
  have a2 : wsub (RT_ALIGN_DOWN stack_addr 16) 16 % 2 ^ 64
      = ((rt_hw_stack_init p m tentry parameter stack_addr texit).1
          + (p.frameSize + 16)) % 2 ^ 64 := by
    rw [hfr]; unfold wsub; omega
  have a3 : wsub (RT_ALIGN_DOWN stack_addr 16) 8 % 2 ^ 64
      = ((rt_hw_stack_init p m tentry parameter stack_addr texit).1
          + (p.frameSize + 24)) % 2 ^ 64 := by
    rw [hfr]; unfold wsub; omega
  have a0 : (rt_hw_stack_init p m tentry parameter stack_addr texit).1 % 2 ^ 64
      = ((rt_hw_stack_init p m tentry parameter stack_addr texit).1 + 0) % 2 ^ 64 := rfl
  rw [wsub_congr _ _ _ a1, wsub_congr _ _ _ a2, wsub_congr _ _ _ a3]
  generalize (rt_hw_stack_init p m tentry parameter stack_addr texit).1 = fr
  rw [wsub_congr _ fr (fr + 0) rfl]
  simp only [in_region fr d (8 * p.RT_HW_SWITCH_CONTEXT_SSTATUS) 8 hd (by omega),
    in_region fr d (8 * p.RT_HW_SWITCH_CONTEXT_RA) 8 hd (by omega),
    in_region fr d 0 p.frameSize hd (by omega),
    in_region fr d (p.frameSize + 8) 8 hd (by omega),
    in_region fr d (p.frameSize + 16) 8 hd (by omega),
    in_region fr d (p.frameSize + 24) 8 hd (by omega)]
  clear hb a0 a1 a2 a3
  split_ifs
  all_goals first
    | rfl
    | (exfalso; omega)
    | (rw [wsub_off fr d _ hd]; omega)

/-- The word at offset `c` from `fr`, from its eight bytes. -/
theorem load64_at (m : Mem) (fr c v : Nat)
    (h : ∀ i, i < 8 → m ((fr + (c + i)) % 2 ^ 64) = (v / 256 ^ i) % 256) :
    load64 m (fr + c) = v % 2 ^ 64 := by
  apply load64_of_bytes
  intro i hi
  rw [Nat.add_assoc]
  exact h i hi

/-- Outside the `32 + sizeof(struct rt_hw_switch_frame)` bytes from the
returned pointer, `rt_hw_stack_init` leaves memory as it was. -/
theorem rt_hw_stack_init_outside (p : Port) (hp : p.WellFormed) (m : Mem)
    (tentry parameter stack_addr texit x : Nat)
    (hx : ¬ (x < 2 ^ 64
      ∧ wsub x (rt_hw_stack_init p m tentry parameter stack_addr texit).1 < 32 + p.frameSize)) :
    (rt_hw_stack_init p m tentry parameter stack_addr texit).2 x = m x := by
  by_cases hlt : x < 2 ^ 64
  · have hd : wsub x (rt_hw_stack_init p m tentry parameter stack_addr texit).1 < 2 ^ 64 := by
      unfold wsub; omega
    have hxd : ((rt_hw_stack_init p m tentry parameter stack_addr texit).1
        + wsub x (rt_hw_stack_init p m tentry parameter stack_addr texit).1) % 2 ^ 64 = x := by
      have hfr := (rt_hw_stack_init_bytes p hp m tentry parameter stack_addr texit x).1
      have hfl : (rt_hw_stack_init p m tentry parameter stack_addr texit).1 < 2 ^ 64 := by
        rw [hfr]; unfold wsub; omega
      revert hfl
      generalize (rt_hw_stack_init p m tentry parameter stack_addr texit).1 = fr
      intro hfl
      unfold wsub
      omega
    have hl := rt_hw_stack_init_layout p hp m tentry parameter stack_addr texit _ hd
    rw [hxd] at hl
    rw [hl]
    obtain ⟨hra, hss, _, hfit, _⟩ := hp
    have hF : p.frameSize = 8 * p.RT_HW_SWITCH_CONTEXT_SIZE := rfl
    have hge : 32 + p.frameSize
        ≤ wsub x (rt_hw_stack_init p m tentry parameter stack_addr texit).1 := by
      by_contra hc
      exact hx ⟨hlt, by omega⟩
    clear hl hxd hx
    generalize wsub x (rt_hw_stack_init p m tentry parameter stack_addr texit).1 = d at *
    split_ifs
    all_goals first
      | rfl
      | (exfalso; omega)
  · rw [(rt_hw_stack_init_bytes p hp m tentry parameter stack_addr texit x).2]
    split_ifs
    all_goals first
      | rfl
      | (exfalso; omega)

/-- C7. Bootstrap record of `rt_hw_stack_init`, with `T` the stack address
rounded down to a multiple of 16 and `F = sizeof(struct rt_hw_switch_frame)`,
addresses taken modulo `2 ^ 64`: the returned pointer is `T - 4 * 8 - F`; the
words at `T - 8`, `T - 16`, `T - 24` (the same addresses as returned `+ F + 24`,
`+ F + 16`, `+ F + 8`) read back as `tentry`, `parameter`, `texit`; the padding
word at `T - 32` is not written; and no byte outside the `32 + F` bytes from
the returned pointer up to `T` is written. When the record and the frame fit
below `T` without wrapping, that region is the interval `[returned, T)`. -/
theorem rt_hw_stack_init_bootstrap (p : Port) (hp : p.WellFormed) (m : Mem)
    (tentry parameter stack_addr texit : Nat)
    (hs : stack_addr < 2 ^ 64) (hte : tentry < 2 ^ 64) (hpa : parameter < 2 ^ 64)
    (htx : texit < 2 ^ 64) :
    (rt_hw_stack_init p m tentry parameter stack_addr texit).1
        = wsub (RT_ALIGN_DOWN stack_addr 16) (4 * 8 + p.frameSize)
    ∧ load64 (rt_hw_stack_init p m tentry parameter stack_addr texit).2
        (wsub (RT_ALIGN_DOWN stack_addr 16) 8) = tentry
    ∧ load64 (rt_hw_stack_init p m tentry parameter stack_addr texit).2
        (wsub (RT_ALIGN_DOWN stack_addr 16) 16) = parameter
    ∧ load64 (rt_hw_stack_init p m tentry parameter stack_addr texit).2
        (wsub (RT_ALIGN_DOWN stack_addr 16) 24) = texit
    ∧ wadd (rt_hw_stack_init p m tentry parameter stack_addr texit).1 (p.frameSize + 24)
        = wsub (RT_ALIGN_DOWN stack_addr 16) 8
    ∧ wadd (rt_hw_stack_init p m tentry parameter stack_addr texit).1 (p.frameSize + 16)
        = wsub (RT_ALIGN_DOWN stack_addr 16) 16
    ∧ wadd (rt_hw_stack_init p m tentry parameter stack_addr texit).1 (p.frameSize + 8)
        = wsub (RT_ALIGN_DOWN stack_addr 16) 24
    ∧ (∀ i, i < 8 →
        (rt_hw_stack_init p m tentry parameter stack_addr texit).2
            (wadd (wsub (RT_ALIGN_DOWN stack_addr 16) 32) i)
          = m (wadd (wsub (RT_ALIGN_DOWN stack_addr 16) 32) i))
    ∧ (∀ x, ¬ (x < 2 ^ 64
          ∧ wsub x (rt_hw_stack_init p m tentry parameter stack_addr texit).1
              < 32 + p.frameSize) →
        (rt_hw_stack_init p m tentry parameter stack_addr texit).2 x = m x)
    ∧ (32 + p.frameSize ≤ RT_ALIGN_DOWN stack_addr 16 →
        (rt_hw_stack_init p m tentry parameter stack_addr texit).1
            = RT_ALIGN_DOWN stack_addr 16 - 32 - p.frameSize
        ∧ ∀ x, (x < (rt_hw_stack_init p m tentry parameter stack_addr texit).1
              ∨ RT_ALIGN_DOWN stack_addr 16 ≤ x) →
            (rt_hw_stack_init p m tentry parameter stack_addr texit).2 x = m x) := by
  have hfr := (rt_hw_stack_init_bytes p hp m tentry parameter stack_addr texit 0).1
  have hlay := rt_hw_stack_init_layout p hp m tentry parameter stack_addr texit
  have hout := rt_hw_stack_init_outside p hp m tentry parameter stack_addr texit
  have hfit : p.frameSize + 32 ≤ 2 ^ 64 := hp.2.2.2.1
  have hra : p.RT_HW_SWITCH_CONTEXT_RA < p.RT_HW_SWITCH_CONTEXT_SIZE := hp.1
  have hss : p.RT_HW_SWITCH_CONTEXT_SSTATUS < p.RT_HW_SWITCH_CONTEXT_SIZE := hp.2.1
  have hF : p.frameSize = 8 * p.RT_HW_SWITCH_CONTEXT_SIZE := rfl
  have hT := RT_ALIGN_DOWN_16 stack_addr
  have a3 : wadd (rt_hw_stack_init p m tentry parameter stack_addr texit).1 (p.frameSize + 24)
      = wsub (RT_ALIGN_DOWN stack_addr 16) 8 := by
    rw [hfr]; unfold wadd wsub; omega
  have a2 : wadd (rt_hw_stack_init p m tentry parameter stack_addr texit).1 (p.frameSize + 16)
      = wsub (RT_ALIGN_DOWN stack_addr 16) 16 := by
    rw [hfr]; unfold wadd wsub; omega
  have a1 : wadd (rt_hw_stack_init p m tentry parameter stack_addr texit).1 (p.frameSize + 8)
      = wsub (RT_ALIGN_DOWN stack_addr 16) 24 := by
    rw [hfr]; unfold wadd wsub; omega
  have a0 : ∀ i, wadd (wsub (RT_ALIGN_DOWN stack_addr 16) 32) i
      = ((rt_hw_stack_init p m tentry parameter stack_addr texit).1
          + (p.frameSize + i)) % 2 ^ 64 := by
    intro i; rw [hfr]; unfold wadd wsub; omega
  refine ⟨hfr, ?_, ?_, ?_, a3, a2, a1, ?_, hout, ?_⟩
  · rw [← a3, wadd, load64_mod]
    refine (load64_at _ _ _ _ ?_).trans (Nat.mod_eq_of_lt hte)
    intro i hi
    rw [hlay _ (by omega)]
    split_ifs
    all_goals first
      | (exfalso; omega)
      | (rw [Nat.add_sub_cancel_left])
  · rw [← a2, wadd, load64_mod]
    refine (load64_at _ _ _ _ ?_).trans (Nat.mod_eq_of_lt hpa)
    intro i hi
    rw [hlay _ (by omega)]
    split_ifs
    all_goals first
      | (exfalso; omega)
      | (rw [Nat.add_sub_cancel_left])
  · rw [← a1, wadd, load64_mod]
    refine (load64_at _ _ _ _ ?_).trans (Nat.mod_eq_of_lt htx)
    intro i hi
    rw [hlay _ (by omega)]
    split_ifs
    all_goals first
      | (exfalso; omega)
      | (rw [Nat.add_sub_cancel_left])
  · intro i hi
    rw [a0 i, hlay _ (by omega)]
    split_ifs
    all_goals first
      | rfl
      | (exfalso; omega)
  · intro hnw
    have hval : (rt_hw_stack_init p m tentry parameter stack_addr texit).1
        = RT_ALIGN_DOWN stack_addr 16 - 32 - p.frameSize := by
      rw [hfr]; unfold wsub; omega
    refine ⟨hval, ?_⟩
    intro x hx
    apply hout
    rw [hval]
    rw [hval] at hx
    intro hc
    unfold wsub at hc
    omega

/-- C7, witness: the layout `rv64Port`, an unaligned stack address `0x8040000c`
(`T = 0x80400000`): the returned pointer is `0x803fff60` and the three words
are at `0x803ffff8`, `0x803ffff0`, `0x803fffe8`. -/
theorem rt_hw_stack_init_bootstrap_witness :
    rv64Port.WellFormed
    ∧ (rt_hw_stack_init rv64Port (fun _ => 0xAA) 0x80201000 0x1234 0x8040000c 0x80202000).1
        = 0x803fff60
    ∧ load64 (rt_hw_stack_init rv64Port (fun _ => 0xAA)
        0x80201000 0x1234 0x8040000c 0x80202000).2 0x803ffff8 = 0x80201000
    ∧ load64 (rt_hw_stack_init rv64Port (fun _ => 0xAA)
        0x80201000 0x1234 0x8040000c 0x80202000).2 0x803ffff0 = 0x1234
    ∧ load64 (rt_hw_stack_init rv64Port (fun _ => 0xAA)
        0x80201000 0x1234 0x8040000c 0x80202000).2 0x803fffe8 = 0x80202000 := by
  have h := rt_hw_stack_init_bootstrap rv64Port (by decide) (fun _ => 0xAA)
    0x80201000 0x1234 0x8040000c 0x80202000 (by norm_num) (by norm_num) (by norm_num)
    (by norm_num)
  have e0 : wsub (RT_ALIGN_DOWN 0x8040000c 16) (4 * 8 + rv64Port.frameSize) = 0x803fff60 := by
    decide
  have e1 : wsub (RT_ALIGN_DOWN 0x8040000c 16) 8 = 0x803ffff8 := by decide
  have e2 : wsub (RT_ALIGN_DOWN 0x8040000c 16) 16 = 0x803ffff0 := by decide
  have e3 : wsub (RT_ALIGN_DOWN 0x8040000c 16) 24 = 0x803fffe8 := by decide
  rw [e0, e1, e2, e3] at h
  exact ⟨by decide, h.1, h.2.1, h.2.2.1, h.2.2.2.1⟩

/-- C8. Initial switch frame: in the frame returned by `rt_hw_stack_init`,
slot `RT_HW_SWITCH_CONTEXT_RA` holds the address of `_rt_thread_entry`, slot
`RT_HW_SWITCH_CONTEXT_SSTATUS` holds `K_SSTATUS_DEFAULT`, every other slot is
0; `K_SSTATUS_DEFAULT` is `SPP | SPIE | SUM`, with `FS` exactly when the FPU is
configured and `VS` exactly when the vector extension is; and the slots do not
depend on `tentry`, `parameter` or `texit`. -/
theorem rt_hw_stack_init_frame (p : Port) (hp : p.WellFormed) (m : Mem)
    (tentry parameter stack_addr texit i : Nat) (hi : i < p.RT_HW_SWITCH_CONTEXT_SIZE) :
    load64 (rt_hw_stack_init p m tentry parameter stack_addr texit).2
        ((rt_hw_stack_init p m tentry parameter stack_addr texit).1 + 8 * i)
      = (if i = p.RT_HW_SWITCH_CONTEXT_RA then p.rt_thread_entry
         else if i = p.RT_HW_SWITCH_CONTEXT_SSTATUS then K_SSTATUS_DEFAULT p
         else 0)
    ∧ K_SSTATUS_DEFAULT p
      = p.SSTATUS_SPP ||| p.SSTATUS_SPIE ||| p.SSTATUS_SUM
          ||| (if p.ARCH_RISCV_FPU then p.SSTATUS_FS else 0)
          ||| (if p.ARCH_RISCV_VECTOR then p.SSTATUS_VS else 0)
    ∧ ∀ tentry2 parameter2 texit2 : Nat,
        load64 (rt_hw_stack_init p m tentry2 parameter2 stack_addr texit2).2
            ((rt_hw_stack_init p m tentry2 parameter2 stack_addr texit2).1 + 8 * i)
          = load64 (rt_hw_stack_init p m tentry parameter stack_addr texit).2
              ((rt_hw_stack_init p m tentry parameter stack_addr texit).1 + 8 * i) := by
  have hK := K_SSTATUS_DEFAULT_lt p hp
  have hfit : p.frameSize + 32 ≤ 2 ^ 64 := hp.2.2.2.1
  have hra : p.RT_HW_SWITCH_CONTEXT_RA < p.RT_HW_SWITCH_CONTEXT_SIZE := hp.1
  have hss : p.RT_HW_SWITCH_CONTEXT_SSTATUS < p.RT_HW_SWITCH_CONTEXT_SIZE := hp.2.1
  have hne : p.RT_HW_SWITCH_CONTEXT_RA ≠ p.RT_HW_SWITCH_CONTEXT_SSTATUS := hp.2.2.1
  have hent : p.rt_thread_entry < 2 ^ 64 := hp.2.2.2.2.2.2.2.2.2
  have hF : p.frameSize = 8 * p.RT_HW_SWITCH_CONTEXT_SIZE := rfl
  have hv : (if i = p.RT_HW_SWITCH_CONTEXT_RA then p.rt_thread_entry
      else if i = p.RT_HW_SWITCH_CONTEXT_SSTATUS then K_SSTATUS_DEFAULT p else 0) < 2 ^ 64 := by
    split_ifs
    · exact hent
    · exact hK
    · norm_num
  have main : ∀ te pa tx : Nat,
      load64 (rt_hw_stack_init p m te pa stack_addr tx).2
          ((rt_hw_stack_init p m te pa stack_addr tx).1 + 8 * i)
        = (if i = p.RT_HW_SWITCH_CONTEXT_RA then p.rt_thread_entry
           else if i = p.RT_HW_SWITCH_CONTEXT_SSTATUS then K_SSTATUS_DEFAULT p
           else 0) := by
    intro te pa tx
    refine (load64_at _ _ _ _ ?_).trans (Nat.mod_eq_of_lt hv)
    intro j hj
    rw [rt_hw_stack_init_layout p hp m te pa stack_addr tx _ (by omega)]
    split_ifs
    all_goals first
      | (exfalso; omega)
      | (have e : 8 * i + j - 8 * p.RT_HW_SWITCH_CONTEXT_SSTATUS = j := by omega
         rw [e])
      | (have e : 8 * i + j - 8 * p.RT_HW_SWITCH_CONTEXT_RA = j := by omega
         rw [e])
      | simp
  refine ⟨main tentry parameter texit, ?_, ?_⟩
  · unfold K_SSTATUS_DEFAULT K_SSTATUS_DEFAULT_BASE
    cases p.ARCH_RISCV_FPU <;> cases p.ARCH_RISCV_VECTOR <;> simp
  · intro te2 pa2 tx2
    rw [main te2 pa2 tx2, main tentry parameter texit]

/-- C8, witness: the layout `rv64Port` (16 slots, `ra` in slot 13, `sstatus` in
slot 0, FPU on): slot 13 holds the entry address, slot 0 holds
`SPP | SPIE | SUM | FS = 0x46120`, slot 5 holds 0. -/
theorem rt_hw_stack_init_frame_witness :
    rv64Port.WellFormed
    ∧ load64 (rt_hw_stack_init rv64Port (fun _ => 0xAA)
          0x80201000 0x1234 0x8040000c 0x80202000).2
        ((rt_hw_stack_init rv64Port (fun _ => 0xAA)
          0x80201000 0x1234 0x8040000c 0x80202000).1 + 8 * 13) = 0x80200400
    ∧ load64 (rt_hw_stack_init rv64Port (fun _ => 0xAA)
          0x80201000 0x1234 0x8040000c 0x80202000).2
        ((rt_hw_stack_init rv64Port (fun _ => 0xAA)
          0x80201000 0x1234 0x8040000c 0x80202000).1 + 8 * 0) = 0x46120
    ∧ load64 (rt_hw_stack_init rv64Port (fun _ => 0xAA)
          0x80201000 0x1234 0x8040000c 0x80202000).2
        ((rt_hw_stack_init rv64Port (fun _ => 0xAA)
          0x80201000 0x1234 0x8040000c 0x80202000).1 + 8 * 5) = 0 :=
  ⟨by decide,
   (rt_hw_stack_init_frame rv64Port (by decide) (fun _ => 0xAA)
      0x80201000 0x1234 0x8040000c 0x80202000 13 (by decide)).1.trans (by decide),
   (rt_hw_stack_init_frame rv64Port (by decide) (fun _ => 0xAA)
      0x80201000 0x1234 0x8040000c 0x80202000 0 (by decide)).1.trans (by decide),
   (rt_hw_stack_init_frame rv64Port (by decide) (fun _ => 0xAA)
      0x80201000 0x1234 0x8040000c 0x80202000 5 (by decide)).1.trans (by decide)⟩

/-- C9, as stated, fails: for `stack_addr = 16` the aligned top is 16 and the
four `--sp` wrap around, so the stack pointer the frame is carved from is
`2 ^ 64 - 16`, which is not at most `stack_addr`. -/
theorem carveSp_wraps :
    carveSp 16 = 2 ^ 64 - 16 ∧ ¬ (carveSp 16 % 16 = 0 ∧ carveSp 16 ≤ 16) := by
  decide

/-- C9, amended. For every 64-bit `stack_addr`, the stack pointer from which
the switch frame is carved out (`stack_addr` rounded down to 16, minus the
four bootstrap words, modulo `2 ^ 64`) is a multiple of 16, and it is at most
`stack_addr` exactly when `stack_addr ≥ 32` (below that the subtraction wraps);
the returned pointer is that stack pointer minus
`sizeof(struct rt_hw_switch_frame)` and is a multiple of 16 whenever that size
is. -/
theorem rt_hw_stack_init_alignment (p : Port) (m : Mem)
    (tentry parameter stack_addr texit : Nat) (hs : stack_addr < 2 ^ 64) :
    carveSp stack_addr % 16 = 0
    ∧ (carveSp stack_addr ≤ stack_addr ↔ 32 ≤ stack_addr)
    ∧ (rt_hw_stack_init p m tentry parameter stack_addr texit).1
        = wsub (carveSp stack_addr) p.frameSize
    ∧ (p.frameSize % 16 = 0 →
        (rt_hw_stack_init p m tentry parameter stack_addr texit).1 % 16 = 0) := by
  have hc := carveSp_eq stack_addr
  have hT := RT_ALIGN_DOWN_16 stack_addr
  have h1 : carveSp stack_addr % 16 = 0 := by rw [hc]; unfold wsub; omega
  have h3 : (rt_hw_stack_init p m tentry parameter stack_addr texit).1
      = wsub (carveSp stack_addr) p.frameSize := rfl
  refine ⟨h1, ?_, h3, ?_⟩
  · rw [hc]; unfold wsub; omega
  · intro hF
    rw [h3]
    unfold wsub
    omega

/-- C9, witness: `stack_addr = 0x8040000c` with the 128-byte frame of `rv64Port`:
the frame is carved from `0x803fffe0` and the returned pointer `0x803fff60` is
16-byte aligned. -/
theorem rt_hw_stack_init_alignment_witness :
    carveSp 0x8040000c = 0x803fffe0
    ∧ carveSp 0x8040000c % 16 = 0
    ∧ carveSp 0x8040000c ≤ 0x8040000c
    ∧ (rt_hw_stack_init rv64Port (fun _ => 0xAA)
        0x80201000 0x1234 0x8040000c 0x80202000).1 % 16 = 0 :=
  ⟨by decide,
   (rt_hw_stack_init_alignment rv64Port (fun _ => 0xAA)
      0x80201000 0x1234 0x8040000c 0x80202000 (by norm_num)).1,
   (rt_hw_stack_init_alignment rv64Port (fun _ => 0xAA)
      0x80201000 0x1234 0x8040000c 0x80202000 (by norm_num)).2.1.mpr (by norm_num),
   (rt_hw_stack_init_alignment rv64Port (fun _ => 0xAA)
      0x80201000 0x1234 0x8040000c 0x80202000 (by norm_num)).2.2.2 (by decide)⟩

end Cpuport
